import Mathlib

/-!
Formal model of `schedule-rs` (src/main.rs): a work/rest schedule generator.

Modelling conventions (shallow embedding of the Rust source):
* `chrono::Duration` values are modelled as `Int` numbers of seconds
  (`Duration::minutes(n)` is `n * 60`); `Duration::num_minutes` is truncating
  division by 60, exactly as Rust `i64` division truncates toward zero.
* `chrono::DateTime<Tz>` values are modelled as `ZonedDateTime`: the UTC
  instant in seconds since the Unix epoch together with the UTC offset (in
  seconds) that the attached timezone assigns to that instant.  Timestamps are
  modelled at second precision; every quantity the program inspects (minutes)
  is coarser.  Comparison of `DateTime`s compares the UTC instants.
* A timezone (`chrono_tz::Tz`) is modelled as `TZ`: its offset function from
  UTC instants, together with the finite list of offsets it can ever produce.
  `TimeZone::from_local_datetime(..).single()` returns the unique UTC instant
  consistent with the zone's offset function, if exactly one exists
  (`fromLocal` below).
* `Europe/London` is modelled by `londonOffset`, following the IANA rules that
  chrono-tz applies to the modern era (the EU rule, in force since 1996):
  UTC+0 (GMT) in winter and UTC+1 (BST) from 01:00 UTC on the last Sunday of
  March until 01:00 UTC on the last Sunday of October.
* Calendar conversions (`Datelike::year/month/day`, `Utc.ymd`) use the
  standard proleptic-Gregorian day algorithms (`civilFromDays`,
  `daysFromCivil`).
-/

namespace ScheduleRs

/-- Days-since-1970-01-01 of the proleptic Gregorian date `(y, m, d)`
(the standard civil-from-days algorithm, floor division throughout). -/
def daysFromCivil (y m d : Int) : Int :=
  let y2 := if m ≤ 2 then y - 1 else y
  let era := y2.fdiv 400
  let yoe := y2 - era * 400
  let mp := if 2 < m then m - 3 else m + 9
  let doy := (153 * mp + 2).fdiv 5 + (d - 1)
  let doe := yoe * 365 + yoe.fdiv 4 - yoe.fdiv 100 + doy
  era * 146097 + doe - 719468

/-- Inverse of `daysFromCivil`: the proleptic Gregorian `(year, month, day)`
of a days-since-epoch count. -/
def civilFromDays (z : Int) : Int × Int × Int :=
  let z2 := z + 719468
  let era := z2.fdiv 146097
  let doe := z2 - era * 146097
  let yoe := (doe - doe.fdiv 1460 + doe.fdiv 36524 - doe.fdiv 146096).fdiv 365
  let y := yoe + era * 400
  let doy := doe - (365 * yoe + yoe.fdiv 4 - yoe.fdiv 100)
  let mp := (5 * doy + 2).fdiv 153
  let d := doy - (153 * mp + 2).fdiv 5 + 1
  let m := if mp < 10 then mp + 3 else mp - 9
  (if m ≤ 2 then y + 1 else y, m, d)

/-- Day of week of a days-since-epoch count, with Sunday = 0
(1970-01-01 was a Thursday). -/
def dayOfWeek (z : Int) : Int := (z + 4).emod 7

def lastSundayOnOrBefore (z : Int) : Int := z - dayOfWeek z

/-- UTC offset (in seconds) of the `Europe/London` timezone at a given UTC
instant, per the IANA rules chrono-tz applies to the modern era: UTC+1
between 01:00 UTC on the last Sunday of March and 01:00 UTC on the last
Sunday of October, UTC+0 otherwise. -/
def londonOffset (t : Int) : Int :=
  let y := (civilFromDays (t.fdiv 86400)).1
  let dstStart := lastSundayOnOrBefore (daysFromCivil y 3 31) * 86400 + 3600
  let dstEnd := lastSundayOnOrBefore (daysFromCivil y 10 31) * 86400 + 3600
  if dstStart ≤ t ∧ t < dstEnd then 3600 else 0

/-- A timezone: its UTC-offset function, with the finite list of offsets it
can produce (used to enumerate the candidate instants for a local time). -/
structure TZ where
  offsets : List Int
  offsetAt : Int → Int

/-- `TimeZone::from_local_datetime(naive).single()`: the unique UTC instant
whose local rendering in `tz` is `naive`, if exactly one exists (`None` on a
DST gap, where no candidate works, and on a DST fold, where two do). -/
def fromLocal (tz : TZ) (naive : Int) : Option Int :=
  match (tz.offsets.map (fun o => naive - o)).filter
      (fun t => t + tz.offsetAt t == naive) with
  | [t] => some t
  | _ => none

def londonTZ : TZ := ⟨[0, 3600], londonOffset⟩

def utcTZ : TZ := ⟨[0], fun _ => 0⟩

/-- `chrono::DateTime<Tz>`: UTC instant (seconds since epoch) plus the UTC
offset its timezone assigns to that instant. -/
structure ZonedDateTime where
  utcSeconds : Int
  offset : Int
deriving DecidableEq, Repr

/-- Naive local seconds (`naive_local()`): UTC seconds plus the offset. -/
def ZonedDateTime.localSeconds (dt : ZonedDateTime) : Int :=
  dt.utcSeconds + dt.offset

/-- The local calendar day (days since epoch) holding this timestamp; the
`Datelike::year()/month()/day()` accessors read the civil date of this day. -/
def ZonedDateTime.localDays (dt : ZonedDateTime) : Int :=
  dt.localSeconds.fdiv 86400

/-- `Duration::num_minutes`: truncating division of the seconds by 60
(Rust `i64` division truncates toward zero). -/
def num_minutes (d : Int) : Int := d.tdiv 60

/-- `struct Target { hour, min, sec: u32 }` from src/main.rs. -/
structure Target where
  hour : Nat
  min : Nat
  sec : Nat
deriving DecidableEq, Repr

/-- `enum ScheduleError` from src/main.rs. -/
inductive ScheduleError where
  | NotInTheFuture
  | InvalidHourMinSec
  | IntervalGreaterThanAvailableTime
deriving DecidableEq, Repr

/-- `enum ActivityKind { Work, Rest }` from src/main.rs. -/
inductive ActivityKind where
  | Work
  | Rest
deriving DecidableEq, Repr

/-- `struct Activity { duration: Duration, kind: ActivityKind }`;
the duration is in seconds. -/
structure Activity where
  duration : Int
  kind : ActivityKind
deriving DecidableEq, Repr

/-- `struct Timetable { entries: Vec<Activity> }`. -/
structure Timetable where
  entries : List Activity
deriving DecidableEq, Repr

/-- `struct Schedule { timetable, start_time, end_time, remaining }`. -/
structure Schedule where
  timetable : Timetable
  start_time : ZonedDateTime
  end_time : ZonedDateTime
  remaining : Int
deriving DecidableEq, Repr

/-- The naive local datetime (in seconds) that `get_duration_until` asks
`Europe/London` to resolve:
`Utc.ymd(now.year(), now.month(), now.day()).with_timezone(&London)` keeps
the naive calendar date (chrono's `Date::with_timezone` re-attaches an offset
to the same `NaiveDate`, and `Date::naive_local()` returns that stored date),
so the candidate's local date is now's local calendar date, and
`and_hms_opt(h, m, s)` appends the target time-of-day to it. -/
def targetNaive (now_time : ZonedDateTime) (target : Target) : Int :=
  let ymd := civilFromDays now_time.localDays
  daysFromCivil ymd.1 ymd.2.1 ymd.2.2 * 86400
    + ((target.hour * 3600 + target.min * 60 + target.sec : Nat) : Int)

/-- `fn get_duration_until` from src/main.rs (lines 156-174).
`and_hms_opt` is `NaiveTime::from_hms_opt` (valid iff hour < 24, min < 60,
sec < 60) followed by `London.from_local_datetime(..).single()`; a `None`
from either step becomes `InvalidHourMinSec` via `ok_or`.  The final
`end_time.cmp(now_time)` compares UTC instants; only `Ordering::Greater`
succeeds, returning `(end_time - now_time, end_time)`. -/
def get_duration_until (now_time : ZonedDateTime) (target : Target) :
    Except ScheduleError (Int × ZonedDateTime) :=
  if target.hour < 24 ∧ target.min < 60 ∧ target.sec < 60 then
    match fromLocal londonTZ (targetNaive now_time target) with
    | none => .error .InvalidHourMinSec
    | some t =>
      if now_time.utcSeconds < t then
        .ok (t - now_time.utcSeconds, ⟨t, londonOffset t⟩)
      else
        .error .NotInTheFuture
  else
    .error .InvalidHourMinSec

/-- The partitioning step of `fn create_schedule` (src/main.rs lines
104-152), as a function of the whole-minute count of the available duration
(the code only ever inspects `dur_to_target.num_minutes()`).  The source
matches on `Ordering` from the `i64` comparison with
`interval_target.num_minutes() = 30`; `Less` and `Equal` both error.  In the
`Greater` branch `iterations` and `remaining_mins` use Rust `i64` `/` and `%`
(truncating), the entries are `iterations` copies of
`[Work(interval - rest), Rest(rest)]` built by map + flatten, and a final
`Work(remaining_mins)` is pushed when `remaining_mins > 0`.  Returns the
entries together with `remaining_mins`. -/
def schedule_activities (mins : Int) : Except ScheduleError (List Activity × Int) :=
  if mins < 30 then
    .error .IntervalGreaterThanAvailableTime
  else if mins = 30 then
    .error .IntervalGreaterThanAvailableTime
  else
    let iterations := mins.tdiv 30
    let remaining_mins := mins.tmod 30
    let entries : List Activity :=
      ((List.range iterations.toNat).map
        (fun _ => [⟨(30 - 5) * 60, ActivityKind.Work⟩, ⟨5 * 60, ActivityKind.Rest⟩])).flatten
    let entries :=
      if 0 < remaining_mins then
        entries ++ [⟨remaining_mins * 60, ActivityKind.Work⟩]
      else entries
    .ok (entries, remaining_mins)

/-- `fn create_schedule` from src/main.rs (lines 100-154): resolve the
duration, partition its whole-minute count, and package the result with
`start_time = now_time`, `end_time` from the resolver, and
`remaining = Duration::minutes(remaining_mins)`. -/
def create_schedule (now_time : ZonedDateTime) (target : Target) :
    Except ScheduleError Schedule :=
  match get_duration_until now_time target with
  | .error e => .error e
  | .ok (dur_to_target, end_time) =>
    match schedule_activities (num_minutes dur_to_target) with
    | .error e => .error e
    | .ok (entries, remaining_mins) =>
      .ok { timetable := ⟨entries⟩
            start_time := now_time
            end_time := end_time
            remaining := remaining_mins * 60 }

/-- Total of the activity durations (seconds) in a timetable. -/
def Timetable.totalDuration (tt : Timetable) : Int :=
  (tt.entries.map (fun a => a.duration)).sum

/-- The Work activity of one full interval: `interval_target - rest_interval`
= 25 minutes. -/
def workActivity : Activity := ⟨(30 - 5) * 60, ActivityKind.Work⟩

/-- The Rest activity of one full interval: `rest_interval` = 5 minutes. -/
def restActivity : Activity := ⟨5 * 60, ActivityKind.Rest⟩

/-! ### Helper lemmas -/

lemma schedule_activities_of_le (mins : Int) (h : mins ≤ 30) :
    schedule_activities mins = .error .IntervalGreaterThanAvailableTime := by
  unfold schedule_activities
  by_cases h1 : mins < 30
  · rw [if_pos h1]
  · rw [if_neg h1, if_pos (by omega)]

lemma schedule_activities_of_gt (mins : Int) (h : 30 < mins) :
    schedule_activities mins =
      .ok ((List.replicate (mins.tdiv 30).toNat [workActivity, restActivity]).flatten
            ++ (if 0 < mins.tmod 30 then [⟨mins.tmod 30 * 60, ActivityKind.Work⟩] else []),
          mins.tmod 30) := by
  unfold schedule_activities
  rw [if_neg (by omega), if_neg (by omega)]
  dsimp only
  rw [List.map_const', List.length_range]
  by_cases hr : 0 < mins.tmod 30
  · rw [if_pos hr, if_pos hr]; rfl
  · rw [if_neg hr, if_neg hr, List.append_nil]; rfl

lemma flatten_replicate_pair_length {α : Type} (w r : α) (n : ℕ) :
    ((List.replicate n [w, r]).flatten).length = 2 * n := by
  induction n with
  | zero => rfl
  | succ k ih =>
    rw [List.replicate_succ, List.flatten_cons, List.length_append, ih]
    simp; omega

lemma flatten_replicate_pair_mem {α : Type} (w r : α) (n : ℕ) :
    ∀ a ∈ (List.replicate n [w, r]).flatten, a = w ∨ a = r := by
  induction n with
  | zero => intro a ha; cases ha
  | succ k ih =>
    intro a ha
    rw [List.replicate_succ, List.flatten_cons] at ha
    rcases List.mem_append.mp ha with h1 | h2
    · rcases h1 with _ | ⟨_, h⟩
      · exact Or.inl rfl
      · rcases h with _ | ⟨_, h⟩
        · exact Or.inr rfl
        · cases h
    · exact ih a h2

lemma flatten_replicate_pair_map_sum (w r : Activity) (n : ℕ) :
    (((List.replicate n [w, r]).flatten).map (fun a => a.duration)).sum
      = (n : Int) * (w.duration + r.duration) := by
  induction n with
  | zero => simp
  | succ k ih =>
    rw [List.replicate_succ, List.flatten_cons, List.map_append, List.sum_append, ih]
    push_cast
    ring_nf
    simp [List.map_cons]
    ring

lemma flatten_replicate_pair_getLast (w r : Activity) (n : ℕ) (h : n ≠ 0) :
    ((List.replicate n [w, r]).flatten).getLast? = some r := by
  obtain ⟨k, rfl⟩ := Nat.exists_eq_succ_of_ne_zero h
  rw [List.replicate_succ', List.flatten_append]
  simp

lemma flatten_replicate_pair_getElem (w r : Activity)
    (hw : w.kind = ActivityKind.Work) (hr : r.kind = ActivityKind.Rest)
    (tail : List Activity) (htail : ∀ a ∈ tail, a.kind = ActivityKind.Work)
    (hlen : tail.length ≤ 1) :
    ∀ (n : ℕ) (i : ℕ) (hi : i < ((List.replicate n [w, r]).flatten ++ tail).length),
      (((List.replicate n [w, r]).flatten ++ tail)[i]).kind
        = if i % 2 = 0 then ActivityKind.Work else ActivityKind.Rest := by
  intro n
  induction n with
  | zero =>
    intro i hi
    simp only [List.replicate, List.flatten_nil, List.nil_append] at hi ⊢
    have hi0 : i = 0 := by omega
    subst hi0
    rw [if_pos (by omega)]
    exact htail _ (List.getElem_mem hi)
  | succ k ih =>
    intro i hi
    have hEq : (List.replicate (k + 1) [w, r]).flatten ++ tail
        = w :: r :: ((List.replicate k [w, r]).flatten ++ tail) := by
      simp [List.replicate_succ]
    rw [List.getElem_of_eq hEq hi]
    match i with
    | 0 => simpa using hw
    | 1 => simpa using hr
    | (j + 2) =>
      have hj : j < ((List.replicate k [w, r]).flatten ++ tail).length := by
        rw [hEq] at hi
        simp only [List.length_cons] at hi
        omega
      have hstep := ih j hj
      simp only [List.getElem_cons_succ]
      rw [hstep]
      have hmod : (j + 2) % 2 = j % 2 := Nat.add_mod_right j 2
      rw [hmod]

lemma get_duration_until_ok_inv {now_time : ZonedDateTime} {target : Target}
    {d : Int} {e : ZonedDateTime}
    (h : get_duration_until now_time target = .ok (d, e)) :
    (target.hour < 24 ∧ target.min < 60 ∧ target.sec < 60) ∧
    fromLocal londonTZ (targetNaive now_time target) = some e.utcSeconds ∧
    e.offset = londonOffset e.utcSeconds ∧
    now_time.utcSeconds < e.utcSeconds ∧
    d = e.utcSeconds - now_time.utcSeconds := by
  unfold get_duration_until at h
  split at h
  case isFalse => cases h
  case isTrue hv =>
    cases hfl : fromLocal londonTZ (targetNaive now_time target) with
    | none => rw [hfl] at h; cases h
    | some t =>
      rw [hfl] at h
      dsimp only at h
      by_cases hlt : now_time.utcSeconds < t
      · rw [if_pos hlt] at h
        simp only [Except.ok.injEq, Prod.mk.injEq] at h
        obtain ⟨hd, he⟩ := h
        subst hd
        subst he
        exact ⟨hv, rfl, rfl, hlt, rfl⟩
      · rw [if_neg hlt] at h
        cases h

lemma schedule_activities_ok_inv {mins : Int} {entries : List Activity} {rem : Int}
    (h : schedule_activities mins = .ok (entries, rem)) :
    30 < mins ∧ rem = mins.tmod 30 ∧
    entries = (List.replicate (mins.tdiv 30).toNat [workActivity, restActivity]).flatten
      ++ (if 0 < mins.tmod 30 then [⟨mins.tmod 30 * 60, ActivityKind.Work⟩] else []) := by
  have hgt : 30 < mins := by
    by_contra hc
    rw [schedule_activities_of_le mins (by omega)] at h
    cases h
  rw [schedule_activities_of_gt mins hgt] at h
  simp only [Except.ok.injEq, Prod.mk.injEq] at h
  exact ⟨hgt, h.2.symm, h.1.symm⟩

lemma create_schedule_ok_inv {now_time : ZonedDateTime} {target : Target} {s : Schedule}
    (h : create_schedule now_time target = .ok s) :
    ∃ (d : Int) (e : ZonedDateTime) (entries : List Activity) (rem : Int),
      get_duration_until now_time target = .ok (d, e) ∧
      schedule_activities (num_minutes d) = .ok (entries, rem) ∧
      s = ⟨⟨entries⟩, now_time, e, rem * 60⟩ := by
  unfold create_schedule at h
  split at h
  case h_1 => cases h
  case h_2 d e heq =>
    split at h
    case h_1 => cases h
    case h_2 entries rem heq2 =>
      simp only [Except.ok.injEq] at h
      exact ⟨d, e, entries, rem, heq, heq2, h.symm⟩

/-! ### Claim theorems -/

/-- C1: for every whole-minute available count strictly greater than 30, the
`Ordering::Greater` branch of `create_schedule` computes
`iterations = floor(available / 30)` and `remainder = available mod 30` in
minute-granularity integer arithmetic, emits exactly `iterations` repetitions
of the pair [Work(25 minutes), Rest(5 minutes)] in order, and appends one
final Work(remainder) activity, with no trailing Rest, if and only if
`remainder > 0`. -/
theorem C1_greater_branch_partition (a : Int) (h : 30 < a) :
    schedule_activities a =
      .ok ((List.replicate (a.fdiv 30).toNat
              [⟨25 * 60, ActivityKind.Work⟩, ⟨5 * 60, ActivityKind.Rest⟩]).flatten
            ++ (if 0 < a.emod 30 then [⟨a.emod 30 * 60, ActivityKind.Work⟩] else []),
          a.emod 30) := by
  have hdiv : a.tdiv 30 = a.fdiv 30 := by
    rw [Int.tdiv_eq_ediv (by omega) (by omega), Int.fdiv_eq_ediv _ (by omega)]
  have hmod : a.tmod 30 = a.emod 30 := Int.tmod_eq_emod (by omega) (by omega)
  rw [schedule_activities_of_gt a h, hdiv, hmod]
  norm_num [workActivity, restActivity]

theorem C1_greater_branch_partition_witness :
    (30 : Int) < 70 ∧
    schedule_activities 70 =
      .ok ([⟨25 * 60, ActivityKind.Work⟩, ⟨5 * 60, ActivityKind.Rest⟩,
            ⟨25 * 60, ActivityKind.Work⟩, ⟨5 * 60, ActivityKind.Rest⟩,
            ⟨10 * 60, ActivityKind.Work⟩], 10) :=
  ⟨by norm_num, by rw [C1_greater_branch_partition 70 (by norm_num)]; rfl⟩

/-- C3: the partitioner fails with `IntervalGreaterThanAvailableTime` if and
only if the whole-minute available count is at most one full interval of 30
minutes — equality is rejected like strictly-less — and in particular
`available = 30` minutes yields this error.  On failure the `Result` carries
only the error, so no timetable is produced. -/
theorem C3_interval_exceeds_available (a : Int) :
    (schedule_activities a = .error .IntervalGreaterThanAvailableTime ↔ a ≤ 30) ∧
    schedule_activities 30 = .error .IntervalGreaterThanAvailableTime := by
  refine ⟨⟨fun h => ?_, fun h => schedule_activities_of_le a h⟩,
    schedule_activities_of_le 30 (by omega)⟩
  by_contra hc
  rw [schedule_activities_of_gt a (by omega)] at h
  cases h

/-- C8: the partitioner is deterministic — a pure function of the available
whole-minute count.  The source (src/main.rs lines 100-154) reads no state
other than its arguments and fixed constants, which the embedding captures by
being a plain function; two calls with the same available value therefore
return identical results (same kinds and durations in the same order). -/
theorem C8_partitioner_deterministic (a b : Int) (hab : a = b) :
    schedule_activities a = schedule_activities b := by
  rw [hab]

theorem C8_partitioner_deterministic_witness :
    (70 : Int) = 70 ∧ schedule_activities 70 = schedule_activities 70 :=
  ⟨rfl, C8_partitioner_deterministic 70 70 rfl⟩

/-- C2: for every `(now, target)` on which `create_schedule` succeeds, the sum
of all Activity durations in the returned Schedule's timetable equals
`end_time - start_time` at the minute granularity used: the whole-minute
count of the summed durations equals the whole-minute count of
`end_time - start_time`. -/
theorem C2_sum_invariant (now_time : ZonedDateTime) (target : Target) (s : Schedule)
    (h : create_schedule now_time target = .ok s) :
    num_minutes s.timetable.totalDuration
      = num_minutes (s.end_time.utcSeconds - s.start_time.utcSeconds) := by
  obtain ⟨d, e, entries, rem, hg, hs, rfl⟩ := create_schedule_ok_inv h
  obtain ⟨hgt, hrem, hent⟩ := schedule_activities_ok_inv hs
  obtain ⟨-, -, -, -, hd⟩ := get_duration_until_ok_inv hg
  set m := num_minutes d with hm
  have htn : ((m.tdiv 30).toNat : Int) = m.tdiv 30 :=
    Int.toNat_of_nonneg (Int.tdiv_nonneg (by omega) (by omega))
  have hsplit : 30 * m.tdiv 30 + m.tmod 30 = m := Int.tdiv_add_tmod m 30
  have hmodnn : 0 ≤ m.tmod 30 := Int.tmod_nonneg 30 (by omega)
  have hsum : Timetable.totalDuration ⟨entries⟩ = 60 * m := by
    unfold Timetable.totalDuration
    dsimp only
    rw [hent, List.map_append, List.sum_append, flatten_replicate_pair_map_sum, htn]
    by_cases hr : 0 < m.tmod 30
    · rw [if_pos hr]
      simp only [List.map_cons, List.map_nil, List.sum_cons, List.sum_nil]
      unfold workActivity restActivity
      dsimp only
      omega
    · rw [if_neg hr]
      simp only [List.map_nil, List.sum_nil]
      unfold workActivity restActivity
      dsimp only
      omega
  dsimp only at hsum ⊢
  rw [hsum, ← hd, hm]
  unfold num_minutes
  rw [Int.mul_tdiv_cancel_left _ (by omega)]

theorem C2_sum_invariant_witness :
    create_schedule ⟨1660114800, 3600⟩ ⟨9, 10, 0⟩
      = .ok ⟨⟨[⟨1500, .Work⟩, ⟨300, .Rest⟩, ⟨1500, .Work⟩, ⟨300, .Rest⟩,
               ⟨600, .Work⟩]⟩, ⟨1660114800, 3600⟩, ⟨1660119000, 3600⟩, 600⟩ ∧
    num_minutes (Timetable.totalDuration ⟨[⟨1500, .Work⟩, ⟨300, .Rest⟩,
        ⟨1500, .Work⟩, ⟨300, .Rest⟩, ⟨600, .Work⟩]⟩)
      = num_minutes ((1660119000 : Int) - 1660114800) := by
  refine ⟨by rfl, ?_⟩
  have := C2_sum_invariant ⟨1660114800, 3600⟩ ⟨9, 10, 0⟩
    ⟨⟨[⟨1500, .Work⟩, ⟨300, .Rest⟩, ⟨1500, .Work⟩, ⟨300, .Rest⟩, ⟨600, .Work⟩]⟩,
      ⟨1660114800, 3600⟩, ⟨1660119000, 3600⟩, 600⟩ (by rfl)
  exact this

/-- C4: every successful output of `create_schedule` has at least 2 entries,
the Activity kinds strictly alternate Work, Rest, Work, Rest, ... at every
position (the final entry, when it is the unpaired Work remainder, still sits
at an even index so the alternation is never broken before it), and when the
remainder is 0 the sequence ends on the Rest of the final full interval. -/
theorem C4_alternation (now_time : ZonedDateTime) (target : Target) (s : Schedule)
    (h : create_schedule now_time target = .ok s) :
    2 ≤ s.timetable.entries.length ∧
    (∀ (i : ℕ) (hi : i < s.timetable.entries.length),
      (s.timetable.entries[i]).kind
        = if i % 2 = 0 then ActivityKind.Work else ActivityKind.Rest) ∧
    (s.remaining = 0 → s.timetable.entries.getLast? = some restActivity) := by
  obtain ⟨d, e, entries, rem, hg, hs, rfl⟩ := create_schedule_ok_inv h
  obtain ⟨hgt, hrem, hent⟩ := schedule_activities_ok_inv hs
  set m := num_minutes d with hm
  have hiter : 1 ≤ (m.tdiv 30).toNat := by
    have : 1 ≤ m.tdiv 30 := by
      rw [Int.tdiv_eq_ediv (by omega) (by omega)]
      omega
    omega
  dsimp only
  refine ⟨?_, ?_, ?_⟩
  · rw [hent, List.length_append, flatten_replicate_pair_length]
    omega
  · intro i hi
    rw [List.getElem_of_eq hent hi]
    exact flatten_replicate_pair_getElem workActivity restActivity rfl rfl _
      (by intro a ha
          by_cases hr : 0 < m.tmod 30
          · rw [if_pos hr] at ha
            rcases ha with _ | ⟨_, ha⟩
            · rfl
            · cases ha
          · rw [if_neg hr] at ha; cases ha)
      (by by_cases hr : 0 < m.tmod 30
          · rw [if_pos hr]; simp
          · rw [if_neg hr]; simp)
      _ i _
  · intro hrem0
    have hr0 : rem = 0 := by omega
    have hmod0 : ¬ 0 < m.tmod 30 := by omega
    rw [hent, if_neg hmod0, List.append_nil]
    exact flatten_replicate_pair_getLast workActivity restActivity _ (by omega)

theorem C4_alternation_witness :
    create_schedule ⟨1660114800, 3600⟩ ⟨9, 10, 0⟩
      = .ok ⟨⟨[⟨1500, .Work⟩, ⟨300, .Rest⟩, ⟨1500, .Work⟩, ⟨300, .Rest⟩,
               ⟨600, .Work⟩]⟩, ⟨1660114800, 3600⟩, ⟨1660119000, 3600⟩, 600⟩ ∧
    2 ≤ ([⟨1500, .Work⟩, ⟨300, .Rest⟩, ⟨1500, .Work⟩, ⟨300, .Rest⟩,
          (⟨600, .Work⟩ : Activity)]).length :=
  ⟨by rfl,
    (C4_alternation ⟨1660114800, 3600⟩ ⟨9, 10, 0⟩
      ⟨⟨[⟨1500, .Work⟩, ⟨300, .Rest⟩, ⟨1500, .Work⟩, ⟨300, .Rest⟩, ⟨600, .Work⟩]⟩,
        ⟨1660114800, 3600⟩, ⟨1660119000, 3600⟩, 600⟩ (by rfl)).1⟩

/-- C9: every Activity in a successfully produced Schedule's timetable has a
strictly positive duration; each duration is moreover 25 minutes (a Work
interval), 5 minutes (a Rest interval), or the schedule's positive remainder
(the final Work entry, present only when the remainder is greater than 0). -/
theorem C9_positive_durations (now_time : ZonedDateTime) (target : Target) (s : Schedule)
    (h : create_schedule now_time target = .ok s) :
    ∀ act ∈ s.timetable.entries,
      0 < act.duration ∧
      (act.duration = 25 * 60 ∨ act.duration = 5 * 60 ∨ act.duration = s.remaining) := by
  obtain ⟨d, e, entries, rem, hg, hs, rfl⟩ := create_schedule_ok_inv h
  obtain ⟨hgt, hrem, hent⟩ := schedule_activities_ok_inv hs
  set m := num_minutes d with hm
  have hmodnn : 0 ≤ m.tmod 30 := Int.tmod_nonneg 30 (by omega)
  intro act hmem
  dsimp only at hmem ⊢
  rw [hent] at hmem
  rcases List.mem_append.mp hmem with hp | ht
  · rcases flatten_replicate_pair_mem workActivity restActivity _ act hp with rfl | rfl
    · exact ⟨by norm_num [workActivity], Or.inl (by norm_num [workActivity])⟩
    · exact ⟨by norm_num [restActivity], Or.inr (Or.inl (by norm_num [restActivity]))⟩
  · by_cases hr : 0 < m.tmod 30
    · rw [if_pos hr] at ht
      rcases ht with _ | ⟨_, ht⟩
      · refine ⟨by dsimp only; omega, Or.inr (Or.inr ?_)⟩
        dsimp only
        omega
      · cases ht
    · rw [if_neg hr] at ht
      cases ht

theorem C9_positive_durations_witness :
    create_schedule ⟨1660114800, 3600⟩ ⟨9, 10, 0⟩
      = .ok ⟨⟨[⟨1500, .Work⟩, ⟨300, .Rest⟩, ⟨1500, .Work⟩, ⟨300, .Rest⟩,
               ⟨600, .Work⟩]⟩, ⟨1660114800, 3600⟩, ⟨1660119000, 3600⟩, 600⟩ ∧
    (0 : Int) < (600 : Int) :=
  ⟨by rfl,
    ((C9_positive_durations ⟨1660114800, 3600⟩ ⟨9, 10, 0⟩
      ⟨⟨[⟨1500, .Work⟩, ⟨300, .Rest⟩, ⟨1500, .Work⟩, ⟨300, .Rest⟩, ⟨600, .Work⟩]⟩,
        ⟨1660114800, 3600⟩, ⟨1660119000, 3600⟩, 600⟩ (by rfl))
      ⟨600, .Work⟩ (by simp)).1⟩

/-- C10 (implicit): `create_schedule` decides entirely on the whole-minute
part of the available duration.  For any two resolved `(now, target)` pairs
whose durations have the same `num_minutes` value, the outcomes agree: both
fail with the same error, or both succeed with identical timetables (same
kinds and durations in order) and identical `remaining`.  Sub-minute seconds
are discarded; on success the `remaining` field equals (whole minutes of
available) mod 30, converted to a Duration (seconds), and the timetable has
at least 2 entries. -/
theorem C10_minute_granularity
    (now1 : ZonedDateTime) (t1 : Target) (now2 : ZonedDateTime) (t2 : Target)
    (d1 d2 : Int) (e1 e2 : ZonedDateTime)
    (h1 : get_duration_until now1 t1 = .ok (d1, e1))
    (h2 : get_duration_until now2 t2 = .ok (d2, e2))
    (hmins : num_minutes d1 = num_minutes d2) :
    (∃ err, create_schedule now1 t1 = .error err ∧
            create_schedule now2 t2 = .error err) ∨
    (∃ s1 s2, create_schedule now1 t1 = .ok s1 ∧
              create_schedule now2 t2 = .ok s2 ∧
              s1.timetable = s2.timetable ∧
              s1.remaining = s2.remaining ∧
              s1.remaining = (num_minutes d1).emod 30 * 60 ∧
              2 ≤ s1.timetable.entries.length) := by
  have hc1 : create_schedule now1 t1
      = match schedule_activities (num_minutes d1) with
        | .error e => .error e
        | .ok (entries, rem) => .ok ⟨⟨entries⟩, now1, e1, rem * 60⟩ := by
    unfold create_schedule
    rw [h1]
  have hc2 : create_schedule now2 t2
      = match schedule_activities (num_minutes d2) with
        | .error e => .error e
        | .ok (entries, rem) => .ok ⟨⟨entries⟩, now2, e2, rem * 60⟩ := by
    unfold create_schedule
    rw [h2]
  rw [hmins] at hc1
  cases hsa : schedule_activities (num_minutes d2) with
  | error err =>
    rw [hsa] at hc1 hc2
    exact Or.inl ⟨err, hc1, hc2⟩
  | ok res =>
    obtain ⟨entries, rem⟩ := res
    rw [hsa] at hc1 hc2
    obtain ⟨hgt, hrem, hent⟩ := schedule_activities_ok_inv hsa
    refine Or.inr ⟨_, _, hc1, hc2, rfl, rfl, ?_, ?_⟩
    · dsimp only
      rw [hmins]
      have : (num_minutes d2).tmod 30 = (num_minutes d2).emod 30 :=
        Int.tmod_eq_emod (by omega) (by omega)
      omega
    · dsimp only
      rw [hent, List.length_append, flatten_replicate_pair_length]
      have : 1 ≤ ((num_minutes d2).tdiv 30).toNat := by
        have : 1 ≤ (num_minutes d2).tdiv 30 := by
          rw [Int.tdiv_eq_ediv (by omega) (by omega)]
          omega
        omega
      omega

theorem C10_minute_granularity_witness :
    (∃ err, create_schedule ⟨1660114800, 3600⟩ ⟨9, 10, 0⟩ = .error err ∧
            create_schedule ⟨1660114800, 3600⟩ ⟨9, 10, 30⟩ = .error err) ∨
    (∃ s1 s2, create_schedule ⟨1660114800, 3600⟩ ⟨9, 10, 0⟩ = .ok s1 ∧
              create_schedule ⟨1660114800, 3600⟩ ⟨9, 10, 30⟩ = .ok s2 ∧
              s1.timetable = s2.timetable ∧
              s1.remaining = s2.remaining ∧
              s1.remaining = (num_minutes (4200 : Int)).emod 30 * 60 ∧
              2 ≤ s1.timetable.entries.length) :=
  C10_minute_granularity ⟨1660114800, 3600⟩ ⟨9, 10, 0⟩ ⟨1660114800, 3600⟩ ⟨9, 10, 30⟩
    4200 4230 ⟨1660119000, 3600⟩ ⟨1660119030, 3600⟩ (by rfl) (by rfl) (by rfl)

/-! ### Resolution of local times in Europe/London -/

lemma londonOffset_eq_or (t : Int) : londonOffset t = 0 ∨ londonOffset t = 3600 := by
  unfold londonOffset
  dsimp only
  split
  · exact Or.inr rfl
  · exact Or.inl rfl

lemma fromLocal_london_sol_sub (naive u : Int) (hu : u + londonOffset u = naive) :
    u = naive ∨ u = naive - 3600 := by
  rcases londonOffset_eq_or u with h | h <;> omega

lemma fromLocal_london_eval (naive : Int) :
    fromLocal londonTZ naive =
      if naive + londonOffset naive = naive then
        (if naive - 3600 + londonOffset (naive - 3600) = naive then none
         else some naive)
      else
        (if naive - 3600 + londonOffset (naive - 3600) = naive then some (naive - 3600)
         else none) := by
  unfold fromLocal londonTZ
  dsimp only
  rw [List.map_cons, List.map_cons, List.map_nil]
  simp only [sub_zero, List.filter_cons, List.filter_nil, beq_iff_eq]
  by_cases h0 : naive + londonOffset naive = naive <;>
    by_cases h1 : naive - 3600 + londonOffset (naive - 3600) = naive <;>
      simp [h0, h1]

lemma fromLocal_london_some_iff (naive t : Int) :
    fromLocal londonTZ naive = some t ↔
      (t + londonOffset t = naive ∧ ∀ u, u + londonOffset u = naive → u = t) := by
  rw [fromLocal_london_eval]
  by_cases h0 : naive + londonOffset naive = naive <;>
    by_cases h1 : naive - 3600 + londonOffset (naive - 3600) = naive
  · rw [if_pos h0, if_pos h1]
    constructor
    · intro h; cases h
    · rintro ⟨hsol, huniq⟩
      have e0 : naive = t := huniq _ h0
      have e1 : naive - 3600 = t := huniq _ h1
      omega
  · rw [if_pos h0, if_neg h1]
    constructor
    · intro h
      have ht : naive = t := by simpa using h
      constructor
      · rw [← ht]
        exact h0
      · intro u hu
        rw [← ht]
        rcases fromLocal_london_sol_sub naive u hu with heq | heq
        · exact heq
        · rw [heq] at hu
          exact absurd hu h1
    · rintro ⟨hsol, huniq⟩
      rw [huniq naive h0]
  · rw [if_neg h0, if_pos h1]
    constructor
    · intro h
      have ht : naive - 3600 = t := by simpa using h
      constructor
      · rw [← ht]
        exact h1
      · intro u hu
        rw [← ht]
        rcases fromLocal_london_sol_sub naive u hu with heq | heq
        · rw [heq] at hu
          exact absurd hu h0
        · exact heq
    · rintro ⟨hsol, huniq⟩
      rw [huniq (naive - 3600) h1]
  · rw [if_neg h0, if_neg h1]
    constructor
    · intro h; cases h
    · rintro ⟨hsol, huniq⟩
      rcases fromLocal_london_sol_sub naive t hsol with heq | heq
      · rw [heq] at hsol
        exact absurd hsol h0
      · rw [heq] at hsol
        exact absurd hsol h1

lemma fromLocal_london_none_iff (naive : Int) :
    fromLocal londonTZ naive = none ↔
      ¬ ∃! t : Int, t + londonOffset t = naive := by
  constructor
  · intro hnone hex
    obtain ⟨t, hsol, huniq⟩ := hex
    have := (fromLocal_london_some_iff naive t).mpr ⟨hsol, huniq⟩
    rw [hnone] at this
    cases this
  · intro hnex
    cases hfl : fromLocal londonTZ naive with
    | none => rfl
    | some t =>
      obtain ⟨hsol, huniq⟩ := (fromLocal_london_some_iff naive t).mp hfl
      exact absurd ⟨t, hsol, huniq⟩ hnex

/-- The definition the spec's words describe for claim C5 (*"interpreted in
the same timezone as now"*): identical to `get_duration_until`, except that
the candidate local datetime is resolved in the timezone of `now_time`
(passed explicitly as `tz`; callers supply the `TZ` whose offset at
`now_time.utcSeconds` is `now_time.offset`) instead of the fixed
`Europe/London`. -/
def get_duration_until_sameTZ (tz : TZ) (now_time : ZonedDateTime) (target : Target) :
    Except ScheduleError (Int × ZonedDateTime) :=
  if target.hour < 24 ∧ target.min < 60 ∧ target.sec < 60 then
    match fromLocal tz (targetNaive now_time target) with
    | none => .error .InvalidHourMinSec
    | some t =>
      if now_time.utcSeconds < t then
        .ok (t - now_time.utcSeconds, ⟨t, tz.offsetAt t⟩)
      else
        .error .NotInTheFuture
  else
    .error .InvalidHourMinSec

/-- C5 counterexample: the Duration Resolver does NOT interpret the candidate
in now's timezone.  With `now = 2022-08-10 12:00:00 UTC` carried in the UTC
timezone (offset 0) and `target = 16:00:00`, the code resolves the candidate
in Europe/London (then at UTC+1) and returns the instant
`1660143600 = 2022-08-10 15:00:00 UTC`, whereas interpreting the same
calendar date and time-of-day in now's own timezone (UTC) yields
`1660147200 = 2022-08-10 16:00:00 UTC` — a different end timestamp. -/
theorem C5_same_timezone_counterexample :
    get_duration_until ⟨1660132800, 0⟩ ⟨16, 0, 0⟩
      = .ok (10800, ⟨1660143600, 3600⟩) ∧
    get_duration_until_sameTZ utcTZ ⟨1660132800, 0⟩ ⟨16, 0, 0⟩
      = .ok (14400, ⟨1660147200, 0⟩) ∧
    (1660143600 : Int) ≠ (1660147200 : Int) :=
  ⟨by rfl, by rfl, by omega⟩

/-- C5 (amended): for every now and target, the Duration Resolver constructs
its candidate end timestamp from now's calendar date (year, month, day, as
seen in now's own timezone) combined with target's hour, minute and second,
interpreted in the fixed `Europe/London` timezone regardless of now's
timezone: on success the returned end timestamp renders, in London local
time, exactly as that calendar date with that time-of-day, and it carries
London's offset. -/
theorem C5_calendar_composition_amended (now_time : ZonedDateTime) (target : Target)
    (d : Int) (e : ZonedDateTime)
    (h : get_duration_until now_time target = .ok (d, e)) :
    e.utcSeconds + londonOffset e.utcSeconds = targetNaive now_time target ∧
    e.offset = londonOffset e.utcSeconds := by
  obtain ⟨hv, hfl, hoff, hlt, hd⟩ := get_duration_until_ok_inv h
  obtain ⟨hsol, -⟩ := (fromLocal_london_some_iff _ _).mp hfl
  exact ⟨hsol, hoff⟩

theorem C5_calendar_composition_amended_witness :
    get_duration_until ⟨1660132800, 0⟩ ⟨16, 0, 0⟩
      = .ok (10800, ⟨1660143600, 3600⟩) ∧
    ((1660143600 : Int) + londonOffset 1660143600
        = targetNaive ⟨1660132800, 0⟩ ⟨16, 0, 0⟩ ∧
      (3600 : Int) = londonOffset 1660143600) :=
  ⟨by rfl,
    C5_calendar_composition_amended ⟨1660132800, 0⟩ ⟨16, 0, 0⟩ 10800
      ⟨1660143600, 3600⟩ (by rfl)⟩

/-- C6: whenever the candidate end timestamp exists (the target time-of-day
is valid and resolves in London to the unique instant `t`),
`get_duration_until` fails with `NotInTheFuture` if and only if the candidate
is not strictly after now, and on success it returns the non-negative
duration `end_time - now` together with the candidate end timestamp itself. -/
theorem C6_not_in_future (now_time : ZonedDateTime) (target : Target) (t : Int)
    (hv : target.hour < 24 ∧ target.min < 60 ∧ target.sec < 60)
    (hres : fromLocal londonTZ (targetNaive now_time target) = some t) :
    (get_duration_until now_time target = .error .NotInTheFuture ↔
      ¬ now_time.utcSeconds < t) ∧
    (now_time.utcSeconds < t →
      get_duration_until now_time target
          = .ok (t - now_time.utcSeconds, ⟨t, londonOffset t⟩) ∧
        0 ≤ t - now_time.utcSeconds) := by
  unfold get_duration_until
  rw [if_pos hv, hres]
  dsimp only
  by_cases hlt : now_time.utcSeconds < t
  · rw [if_pos hlt]
    refine ⟨⟨fun h => ?_, fun h => absurd hlt h⟩, fun h => ⟨rfl, by omega⟩⟩
    cases h
  · rw [if_neg hlt]
    exact ⟨⟨fun _ => hlt, fun _ => rfl⟩, fun h => absurd h hlt⟩

theorem C6_not_in_future_witness :
    ((16 : Nat) < 24 ∧ (0 : Nat) < 60 ∧ (0 : Nat) < 60) ∧
    fromLocal londonTZ (targetNaive ⟨1660132800, 0⟩ ⟨16, 0, 0⟩)
      = some 1660143600 ∧
    ((1660132800 : Int) < 1660143600) ∧
    (get_duration_until ⟨1660132800, 0⟩ ⟨16, 0, 0⟩
        = .ok (1660143600 - 1660132800, ⟨1660143600, londonOffset 1660143600⟩) ∧
      (0 : Int) ≤ 1660143600 - 1660132800) :=
  ⟨by decide, by rfl, by decide,
    (C6_not_in_future ⟨1660132800, 0⟩ ⟨16, 0, 0⟩ 1660143600
      (by decide) (by rfl)).2 (by decide)⟩

/-- C7 counterexample: `InvalidHourMinSec` is NOT raised exactly on invalid
times-of-day.  `target = 01:30:00` is a perfectly valid time-of-day
(hour < 24, min < 60, sec < 60), yet with
`now = 2022-03-27 00:00:00 UTC` (the morning of London's spring-forward,
whose 01:00-02:00 local hour does not exist) `get_duration_until` returns
`InvalidHourMinSec`, because `Date::and_hms_opt` also returns `None` when the
valid local time has no unique instant in `Europe/London`. -/
theorem C7_invalid_time_counterexample :
    get_duration_until ⟨1648339200, 0⟩ ⟨1, 30, 0⟩ = .error .InvalidHourMinSec ∧
    ((1 : Nat) < 24 ∧ (30 : Nat) < 60 ∧ (0 : Nat) < 60) :=
  ⟨by rfl, by omega⟩

/-- C7 (amended): `get_duration_until` fails with `InvalidHourMinSec` if and
only if target's hour, minute and second do not compose a valid time-of-day
OR the (valid) local datetime they compose has no unique instant in
`Europe/London` (a DST gap or fold).  Either way the failure is the typed
error value, never a panic: the embedding is a total function into
`Except`. -/
theorem C7_invalid_time_amended (now_time : ZonedDateTime) (target : Target) :
    get_duration_until now_time target = .error .InvalidHourMinSec ↔
      (¬ (target.hour < 24 ∧ target.min < 60 ∧ target.sec < 60) ∨
        ¬ ∃! t : Int, t + londonOffset t = targetNaive now_time target) := by
  unfold get_duration_until
  by_cases hv : target.hour < 24 ∧ target.min < 60 ∧ target.sec < 60
  · rw [if_pos hv]
    cases hfl : fromLocal londonTZ (targetNaive now_time target) with
    | none =>
      dsimp only
      constructor
      · intro _
        exact Or.inr ((fromLocal_london_none_iff _).mp hfl)
      · intro _
        rfl
    | some t =>
      dsimp only
      obtain ⟨hsol, huniq⟩ := (fromLocal_london_some_iff _ t).mp hfl
      have hex : ∃! u : Int, u + londonOffset u = targetNaive now_time target :=
        ⟨t, hsol, huniq⟩
      constructor
      · intro h
        by_cases hlt : now_time.utcSeconds < t
        · rw [if_pos hlt] at h
          cases h
        · rw [if_neg hlt] at h
          cases h
      · rintro (hcon | hcon)
        · exact absurd hv hcon
        · exact absurd hex hcon
  · rw [if_neg hv]
    constructor
    · intro _
      exact Or.inl hv
    · intro _
      rfl

end ScheduleRs
